import Mathlib

/-!
Verification of the LivreMêlé Remêleur document pipeline.

This file gives a shallow embedding, in Lean, of the parts of the
TypeScript sources that the specification's claims talk about:

* `src/utils/helpers.ts`        — `getFilename`, `isFontFile`;
* `src/services/pdfGenerator.ts` (two concatenated modules):
  - `PdfGenerator.generate` with `getSvgDimensions`,
    `detectBackgroundColor` and the inside-cover logic;
  - `SvgProcessor.bundleResources` (asset resolution) and
    `SvgProcessor.redact` (tag-driven redaction);
* `src/unnamed/part_004` (the application module) — file intake
  (`handleFilesAdded`), the export-eligibility filter (`getValidFiles`),
  the archive exporter (`downloadZip`) and bundling status transitions
  (`bundleFile`);
* `src/components/TaggingEditor.tsx` — the per-element tag toggle
  (`handleSvgClick`).

Markup strings are modelled at the DOM boundary as already-parsed
structures (one structure per view that the code reads or writes),
since the browser's `DOMParser`/`XMLSerializer` are platform services,
not repository code.  Wherever a platform capability decides control
flow (network `fetch`, `Math.random` suffixes, canvas rasterization
exceptions, the XML well-formedness check), it is passed in as an
explicit parameter or oracle, so every definition stays executable.
-/

namespace LivreMele

/-! ## JavaScript string primitives used by the sources

JS `String.prototype.split(sep)` / `Array.prototype.join(sep)` with a
one-character separator, modelled on `List Char`. -/

/-- JS `split(sep)` with a one-character separator, on a character
list: cut at every separator; adjacent separators produce empty pieces,
and the empty list yields one empty piece. -/
def charSplitOn (sep : Char) : List Char → List Char → List (List Char)
  | [], acc => [acc.reverse]
  | c :: cs, acc =>
    if c = sep then acc.reverse :: charSplitOn sep cs []
    else charSplitOn sep cs (c :: acc)

/-- JS `s.split(sep)` at `String` level (one-character separator). -/
def strSplitOn (sep : Char) (s : String) : List String :=
  (charSplitOn sep s.data []).map String.mk

/-- JS `split(',')` on a character list. -/
def charSplitComma (cs acc : List Char) : List (List Char) :=
  charSplitOn ',' cs acc

/-- JS `join(',')` on character-list pieces. -/
def charJoinComma : List (List Char) → List Char
  | [] => []
  | [x] => x
  | x :: xs => x ++ ',' :: charJoinComma xs

/-- JS `"a,b".split(',')` at `String` level. -/
def splitComma (s : String) : List String :=
  (charSplitComma s.data []).map String.mk

/-- JS `parts.join(',')` at `String` level. -/
def joinComma (l : List String) : String :=
  String.mk (charJoinComma (l.map String.data))

/-- Does the second list start with the first? -/
def charLeads : List Char → List Char → Bool
  | [], _ => true
  | _ :: _, [] => false
  | p :: ps, c :: cs => p = c && charLeads ps cs

/-- JS `s.startsWith(pat)` at `String` level. -/
def strStarts (s pat : String) : Bool :=
  charLeads pat.data s.data

/-- JS `s.endsWith(pat)` at `String` level. -/
def strEnds (s pat : String) : Bool :=
  charLeads pat.data.reverse s.data.reverse

/-- JS `s.substring(n)` / Lean `String.drop` at character level. -/
def strDrop (s : String) (n : Nat) : String :=
  String.mk (s.data.drop n)

/-- JS `haystack.includes(needle)` on character lists: some offset of the
haystack starts with the needle. -/
def charContains (hay pat : List Char) : Bool :=
  (List.range (hay.length + 1)).any (fun i => charLeads pat (hay.drop i))

/-- JS `s.includes(t)` at `String` level. -/
def containsSubstr (s t : String) : Bool :=
  charContains s.data t.data

/-- ASCII lowercasing of one character (JS `toLowerCase` restricted to
ASCII, which is all the sources ever lowercase: tag names, filenames,
color keywords). -/
def asciiLowerChar (c : Char) : Char :=
  if 65 ≤ c.toNat ∧ c.toNat ≤ 90 then Char.ofNat (c.toNat + 32) else c

/-- JS `s.toLowerCase()` (ASCII range). -/
def asciiLower (s : String) : String :=
  String.mk (s.data.map asciiLowerChar)

/-- The character class of the JS regex `\\s` (also the set trimmed by
JS `String.prototype.trim`), written out by codepoint: TAB, LF, VT, FF,
CR, SPACE, NBSP, OGHAM SPACE, U+2000-U+200A, LINE/PARAGRAPH SEPARATOR,
NARROW NBSP, MATHEMATICAL SPACE, IDEOGRAPHIC SPACE, BOM. -/
def jsIsSpace (c : Char) : Bool :=
  let n := c.toNat
  n = 0x9 || n = 0xA || n = 0xB || n = 0xC || n = 0xD || n = 0x20 ||
  n = 0xA0 || n = 0x1680 || (0x2000 ≤ n && n ≤ 0x200A) ||
  n = 0x2028 || n = 0x2029 || n = 0x202F || n = 0x205F ||
  n = 0x3000 || n = 0xFEFF

/-- JS `s.trim()`. -/
def jsTrim (s : String) : String :=
  String.mk (((s.data.dropWhile jsIsSpace).reverse.dropWhile jsIsSpace).reverse)

/-! ## `src/utils/helpers.ts` -/

/-- `getFilename` (src/utils/helpers.ts:22): for an absolute `http(s)`
address, `new URL(path)` succeeds and the result is the last `/`-segment
of the pathname (which excludes query and fragment); otherwise `new URL`
throws and the fallback takes the last `/`-segment of the raw path with
a trailing `?query` stripped, defaulting to `"unknown"` when empty. -/
def getFilename (path : String) : String :=
  if strStarts path "http://" || strStarts path "https://" then
    let afterScheme :=
      if strStarts path "https://" then strDrop path 8 else strDrop path 7
    let beforeFrag := (strSplitOn '#' afterScheme).headD ""
    let beforeQuery := (strSplitOn '?' beforeFrag).headD ""
    let parts := strSplitOn '/' beforeQuery
    if parts.length ≤ 1 then "" else parts.getLastD ""
  else
    let seg := (strSplitOn '/' path).getLastD ""
    let noQuery := (strSplitOn '?' seg).headD ""
    if noQuery = "" then "unknown" else noQuery

/-- `isFontFile` (src/utils/helpers.ts:34): the regex
`/\.(woff|woff2|ttf|otf|eot)$/i`. -/
def isFontFile (name : String) : Bool :=
  let l := asciiLower name
  strEnds l ".woff" || strEnds l ".woff2" || strEnds l ".ttf" ||
  strEnds l ".otf" || strEnds l ".eot"

/-! ## Redaction transform (`SvgProcessor.redact`) -/

/-- The replacement string of the source's
`node.textContent.replace(/[^\s]/g, '...')` exactly as it appears in
the source file (bytes `c3 a2 e2 80 93 c2 ae`): the three characters
U+00E2, U+2013, U+00AE — a mojibake rendering of what was presumably
meant to be the single glyph U+25AE. -/
def maskGlyph : String :=
  String.mk [Char.ofNat 0xE2, Char.ofNat 0x2013, Char.ofNat 0xAE]

/-- One text node's masking: every `\s` character is kept, every other
character is replaced by the (three-character) replacement string. -/
def maskText (s : String) : String :=
  String.mk (s.data.flatMap (fun c => if jsIsSpace c then [c] else maskGlyph.data))

/-- `SvgProcessor.shouldRedact` (src/services/pdfGenerator.ts:428): the
`data-tags` attribute exists, is non-empty, and its lowercase form
contains the substring `"redact"`.  An absent or empty attribute is
modelled as `none` (both are falsy in the source). -/
def shouldRedact (tags : Option String) : Bool :=
  match tags with
  | none => false
  | some t => containsSubstr (asciiLower t) "redact"

/-- An `<image>` element as read/written by `redact`: its `data-tags`
attribute and its `filter` attribute. -/
structure SvgImage where
  dataTags : Option String
  filterAttr : Option String
deriving DecidableEq, Repr

/-- A `<text>`/`<tspan>` container as read/written by `redact`: its
`data-tags` attribute and the text-leaf nodes beneath it (the nodes the
`TreeWalker` visits, in document order). -/
structure SvgTextEl where
  dataTags : Option String
  textNodes : List String
deriving DecidableEq, Repr

/-- The view of a parsed SVG document that `redact` reads and writes:
whether a `<defs>` element exists, the `id`s of the elements inside it
(`defsIds`), the `id`s carried by elements anywhere *outside* the
definitions section (`otherIds` — an input document may put an `id` on
any element), all `<image>` elements, and all text containers.
`doc.getElementById` is a whole-document lookup, i.e. membership in
`defsIds` or `otherIds`; `redact` itself only ever creates an `id`
inside `<defs>` and never writes `otherIds`. -/
structure SvgMarkup where
  defsPresent : Bool
  defsIds : List String
  otherIds : List String
  images : List SvgImage
  texts : List SvgTextEl
deriving DecidableEq, Repr

/-- The fixed filter id `FILTER_ID = 'redact-blur'`. -/
def filterId : String := "redact-blur"

/-- `SvgProcessor.redact` (src/services/pdfGenerator.ts:434).  Image
part: when at least one image is a redaction target, ensure `<defs>`
exists, create the blur filter only when
`doc.getElementById(FILTER_ID)` finds no element carrying that id
anywhere in the document (pdfGenerator.ts:449 — inside `<defs>` or
not), and point every target image's `filter` attribute at the id.
Text part: in every redaction-tagged text container, each text node
with non-whitespace content is masked by `maskText`. -/
def redact (d : SvgMarkup) : SvgMarkup :=
  let anyImg := d.images.any (fun i => shouldRedact i.dataTags)
  let d1 :=
    if anyImg then
      let defsIds' :=
        if filterId ∈ d.defsIds ∨ filterId ∈ d.otherIds then d.defsIds
        else d.defsIds ++ [filterId]
      { d with
          defsPresent := true
          defsIds := defsIds'
          images := d.images.map (fun i =>
            if shouldRedact i.dataTags then
              { i with filterAttr := some ("url(#" ++ filterId ++ ")") }
            else i) }
    else d
  { d1 with
      texts := d1.texts.map (fun t =>
        if shouldRedact t.dataTags then
          { t with textNodes := t.textNodes.map (fun s =>
              if 0 < (jsTrim s).length then maskText s else s) }
        else t) }

/-! ## Document lifecycle and intake (`src/unnamed/part_000`, `part_004`) -/

/-- `ProcessingStatus` (src/unnamed/part_000). -/
inductive ProcessingStatus where
  | IDLE
  | PENDING
  | PROCESSING
  | COMPLETED
  | ERROR
deriving DecidableEq, Repr

/-- The export-eligibility filter `getValidFiles`
(src/unnamed/part_004:133): status `COMPLETED` or `IDLE`. -/
def isValidStatusForExport (s : ProcessingStatus) : Bool :=
  s = ProcessingStatus.COMPLETED || s = ProcessingStatus.IDLE

/-- A collection entry (`ProcessedSVG`, src/unnamed/part_000) at the
intake/lifecycle level, where `processedContent` is kept as the raw
markup string exactly as stored. -/
structure IntakeDoc where
  name : String
  processedContent : Option String
  status : ProcessingStatus
  errors : List String
  progress : Nat
deriving DecidableEq, Repr

/-- One file's intake in `handleFilesAdded` (src/unnamed/part_004:46):
`svgProcessor.parse` is just `file.text()`, and the new entry is built
with the raw text as content, status `IDLE`, no errors, progress 0 —
with no well-formedness check of any kind. -/
def intakeDocument (name rawText : String) : IntakeDoc :=
  { name := name
    processedContent := some rawText
    status := ProcessingStatus.IDLE
    errors := []
    progress := 0 }

/-- Modelled from the spec: the platform XML parser's well-formedness
verdict (`DOMParser` producing a `parsererror` element), which is a
browser service and not part of the repository sources.  A minimal
stand-in sufficient to certify concrete non-markup inputs as malformed:
the text must start with `<` and end with `>`. -/
def isParseableMarkup (s : String) : Bool :=
  strStarts s "<" && strEnds s ">"

/-- The status transition of `App.bundleFile` (src/unnamed/part_004:64)
combined with the parse guard at the top of
`SvgProcessor.bundleResources` (src/services/pdfGenerator.ts:298):
missing content or a parser error throws, which the catch turns into
status `ERROR` with progress 100 and the thrown message as the error
list.  (On the success path the resolved content/assets that
`bundleResources` returns are modelled separately by `bundleResources`
below; only the status fields are tracked here.) -/
def bundleIntakeDoc (d : IntakeDoc) : IntakeDoc :=
  match d.processedContent with
  | none =>
    { d with
        status := ProcessingStatus.ERROR
        progress := 100
        errors := ["No content to process"] }
  | some c =>
    if isParseableMarkup c then
      { d with status := ProcessingStatus.COMPLETED, progress := 100 }
    else
      { d with
          status := ProcessingStatus.ERROR
          progress := 100
          errors := ["Invalid SVG file format"] }

/-! ## Archive exporter (`downloadZip`, src/unnamed/part_004:137) -/

/-- A collection entry as seen by the archive exporter, with the markup
string modelled as its parsed tree (`SvgMarkup`). -/
structure ExportDoc where
  name : String
  status : ProcessingStatus
  markup : Option SvgMarkup
deriving DecidableEq, Repr

/-- The markup entries written into the zip by `downloadZip`
(src/unnamed/part_004:169): for each valid file (status `COMPLETED` or
`IDLE`) with non-null content, `zip.file(name, svgProcessor.redact(content))`
— the sequence of `(entry name, entry content)` write calls, in order.
(The two asset folders are outside this claim's scope.) -/
def zipMarkupEntries (files : List ExportDoc) : List (String × SvgMarkup) :=
  (files.filter (fun f => isValidStatusForExport f.status)).filterMap
    (fun f => f.markup.map (fun c => (f.name, redact c)))

/-! ## Asset resolution (`SvgProcessor.bundleResources`) -/

/-- An opaque binary payload (a `Blob`'s bytes). -/
abbrev Blob := String

/-- `LocalAsset` (src/unnamed/part_000). -/
structure LocalAsset where
  originalUrl : String
  localFileName : String
  blob : Blob
deriving DecidableEq, Repr

/-- A successful network response: its body and its `content-type`
header (`''` when the header is absent). -/
structure FetchResult where
  blob : Blob
  contentType : String
deriving DecidableEq, Repr

/-- An `<image>` element as seen by `bundleResources`: its resource
reference (`href`, or its `xlink:href` fallback — read and rewritten
together in the source, hence one field). -/
structure BundleImage where
  href : Option String
deriving DecidableEq, Repr

/-- A `<style>` element as seen by `bundleResources`: the `url(...)`
tokens its text matched against `/url\s*\((?:'|")?([^'")]+)(?:'|")?\)/g`,
in order.  The `css.replace(url, ...)` rewrite is modelled as rewriting
the matched token. -/
structure BundleStyle where
  urls : List String
deriving DecidableEq, Repr

/-- The view of a parsed document that `bundleResources` reads and
rewrites. -/
structure BundleDoc where
  images : List BundleImage
  styles : List BundleStyle
deriving DecidableEq, Repr

/-- The per-call resolution state: the dedup map `urlToFilenameMap`
(append-only association list — the code only inserts keys that are
absent), the accumulated `assets` and `errors`, and a counter selecting
the next random suffix. -/
structure ResolveState where
  urlMap : List (String × String)
  assets : List LocalAsset
  errors : List String
  randIdx : Nat
deriving DecidableEq, Repr

/-- `Map.get` on the dedup map. -/
def mapLookup (m : List (String × String)) (k : String) : Option String :=
  match m with
  | [] => none
  | (a, b) :: rest => if a = k then some b else mapLookup rest k

/-- The extension chosen for a fetched asset
(src/services/pdfGenerator.ts:360-368): last `.`-segment of the derived
filename (`'bin'` when empty), overridden by a MIME sniff of the
`content-type` header only for font fetches whose derived filename does
not look like a font file. -/
def synthExt (targetFilename : String) (isFont : Bool) (contentType : String) : String :=
  let ext0 := (strSplitOn '.' targetFilename).getLastD ""
  let ext1 := if ext0 = "" then "bin" else ext0
  if isFont && !isFontFile targetFilename then
    if containsSubstr contentType "woff2" then "woff2"
    else if containsSubstr contentType "woff" then "woff"
    else if containsSubstr contentType "ttf" then "ttf"
    else ext1
  else ext1

/-- `processAsset` (src/services/pdfGenerator.ts:338): skip data/fragment
references; reuse the dedup map; else adopt the pool asset under the
derived filename; else for `http...` references fetch — a failed fetch
records an error, a successful one records an asset under a synthesized
`asset_<random>.<ext>` name (the `if (!localName)` guard in the source
is always true on this path, since `localName` was never assigned);
else (relative, no pool match) return null without touching the state.
`pool` is the caller's `preloadedAssets` map, `fetchUrl` the network
oracle (`none` = rejected promise or non-ok response), and `randSuffix`
the stream of `Math.random().toString(36).substring(2, 8)` values. -/
def processAsset (pool : String → Option Blob) (fetchUrl : String → Option FetchResult)
    (randSuffix : Nat → String) (st : ResolveState) (href : String) (isFont : Bool) :
    ResolveState × Option String :=
  if href = "" || strStarts href "data:" || strStarts href "#" then (st, none)
  else
    match mapLookup st.urlMap href with
    | some localName => (st, some localName)
    | none =>
      let targetFilename := getFilename href
      match pool targetFilename with
      | some b =>
        ({ st with
            assets := st.assets ++ [⟨href, targetFilename, b⟩]
            urlMap := st.urlMap ++ [(href, targetFilename)] },
         some targetFilename)
      | none =>
        if strStarts href "http" then
          match fetchUrl href with
          | none =>
            ({ st with
                errors := st.errors ++
                  ["Failed to load " ++ href ++ ": Failed to fetch " ++ href] },
             none)
          | some fr =>
            let localName :=
              "asset_" ++ randSuffix st.randIdx ++ "." ++
                synthExt targetFilename isFont fr.contentType
            ({ st with
                randIdx := st.randIdx + 1
                assets := st.assets ++ [⟨href, localName, fr.blob⟩]
                urlMap := st.urlMap ++ [(href, localName)] },
             some localName)
        else (st, none)

/-- The image loop (src/services/pdfGenerator.ts:391): for each image
with a truthy `href`, resolve it; a returned local name rewrites the
reference to `images/<name>`. -/
def resolveImages (pool : String → Option Blob) (fetchUrl : String → Option FetchResult)
    (randSuffix : Nat → String) :
    ResolveState → List BundleImage → ResolveState × List BundleImage
  | st, [] => (st, [])
  | st, img :: rest =>
    let step : ResolveState × BundleImage :=
      match img.href with
      | none => (st, img)
      | some h =>
        if h = "" then (st, img)
        else
          match processAsset pool fetchUrl randSuffix st h false with
          | (st', some n) => (st', { href := some ("images/" ++ n) })
          | (st', none) => (st', img)
    let tail := resolveImages pool fetchUrl randSuffix step.1 rest
    (tail.1, step.2 :: tail.2)

/-- The font loop over one style's `url(...)` tokens
(src/services/pdfGenerator.ts:405): only tokens that look like font
files are resolved; a returned local name rewrites the token to
`fonts/<name>`. -/
def resolveStyleUrls (pool : String → Option Blob) (fetchUrl : String → Option FetchResult)
    (randSuffix : Nat → String) :
    ResolveState → List String → ResolveState × List String
  | st, [] => (st, [])
  | st, u :: rest =>
    let step : ResolveState × String :=
      if isFontFile u then
        match processAsset pool fetchUrl randSuffix st u true with
        | (st', some n) => (st', "fonts/" ++ n)
        | (st', none) => (st', u)
      else (st, u)
    let tail := resolveStyleUrls pool fetchUrl randSuffix step.1 rest
    (tail.1, step.2 :: tail.2)

/-- The loop over all style elements. -/
def resolveStyles (pool : String → Option Blob) (fetchUrl : String → Option FetchResult)
    (randSuffix : Nat → String) :
    ResolveState → List BundleStyle → ResolveState × List BundleStyle
  | st, [] => (st, [])
  | st, sty :: rest =>
    let step := resolveStyleUrls pool fetchUrl randSuffix st sty.urls
    let tail := resolveStyles pool fetchUrl randSuffix step.1 rest
    (tail.1, ⟨step.2⟩ :: tail.2)

/-- `SvgProcessor.bundleResources` (src/services/pdfGenerator.ts:293)
after its parse guard (the guard itself is `isParseableMarkup` /
`bundleIntakeDoc` above): fresh state, the image loop, then the font
loop; returns the rewritten document, the new assets and the errors. -/
def bundleResources (pool : String → Option Blob) (fetchUrl : String → Option FetchResult)
    (randSuffix : Nat → String) (d : BundleDoc) :
    BundleDoc × List LocalAsset × List String :=
  let s0 : ResolveState := ⟨[], [], [], 0⟩
  let imgs := resolveImages pool fetchUrl randSuffix s0 d.images
  let stys := resolveStyles pool fetchUrl randSuffix imgs.1 d.styles
  (⟨imgs.2, stys.2⟩, stys.1.assets, stys.1.errors)

/-! ## Paginated export (`PdfGenerator.generate`) -/

/-- A `<rect>` as inspected by `detectBackgroundColor`: its raw
`width`/`height`/`fill` attribute strings (`none` = attribute absent,
compared with `===` in the source, so `none = none` matching is
faithful to `null === null`). -/
structure RectEl where
  widthAttr : Option String
  heightAttr : Option String
  fillAttr : Option String
deriving DecidableEq, Repr

/-- The view of a page's markup that `getSvgDimensions` and
`detectBackgroundColor` read.  Numeric attribute parsing
(`parseFloat`, the `viewBox` split) happens at the platform boundary;
its result is stored here: `viewBoxDims` is `some (w, h)` when the
`viewBox` attribute is present with exactly four parts (third and
fourth part, with non-numeric parts as 0, which the source treats the
same as 0 via its falsiness checks); `widthNum`/`heightNum` are
`parseFloat(attr) || 0` when the attribute string is truthy.
`widthRaw`/`heightRaw` keep the raw strings `detectBackgroundColor`
compares against rect attributes, and `bgStyle` is the root element's
truthy `style.backgroundColor`. -/
structure PageDoc where
  viewBoxDims : Option (ℚ × ℚ)
  widthNum : Option ℚ
  heightNum : Option ℚ
  widthRaw : Option String
  heightRaw : Option String
  bgStyle : Option String
  rects : List RectEl
deriving DecidableEq, Repr

/-- `PdfGenerator.getSvgDimensions` (src/services/pdfGenerator.ts:118):
viewBox third/fourth components when present (with exactly four parts),
else falling through to `width`/`height` attributes when both are
present, else — and also whenever a falsy (0) component survives — the
fixed default 210x297. -/
def getSvgDimensions (d : PageDoc) : ℚ × ℚ :=
  let vb : ℚ × ℚ :=
    match d.viewBoxDims with
    | some wh => wh
    | none => (0, 0)
  let wh : ℚ × ℚ :=
    if vb.1 = 0 ∨ vb.2 = 0 then
      match d.widthNum, d.heightNum with
      | some wa, some ha => (wa, ha)
      | _, _ => vb
    else vb
  if wh.1 = 0 ∨ wh.2 = 0 then (210, 297) else wh

/-- The rect heuristic of `detectBackgroundColor`
(src/services/pdfGenerator.ts:108): `100%`-by-`100%`, or width/height
attribute strings strictly equal to the root's. -/
def rectMatchesBackground (d : PageDoc) (r : RectEl) : Bool :=
  (r.widthAttr = some "100%" && r.heightAttr = some "100%") ||
  (r.widthAttr = d.widthRaw && r.heightAttr = d.heightRaw)

/-- `PdfGenerator.detectBackgroundColor` (src/services/pdfGenerator.ts:87):
a truthy background style on the root wins; else the `fill` attribute of
the first matching rect (possibly absent) is returned; else null. -/
def detectBackgroundColor (d : PageDoc) : Option String :=
  match d.bgStyle with
  | some c => some c
  | none =>
    match d.rects.find? (rectMatchesBackground d) with
    | some r => r.fillAttr
    | none => none

/-- The fixed output width `pdfWidth = 210` (mm). -/
def pdfWidth : ℚ := 210

/-- jsPDF page orientation, `'l'` or `'p'`. -/
inductive Orientation where
  | l
  | p
deriving DecidableEq, Repr

/-- Steps 3-4 of the per-page pipeline
(src/services/pdfGenerator.ts:24-29): `pdfHeight = pdfWidth /
(svgW / svgH)` and orientation `'l'` iff `pdfWidth > pdfHeight`.
(`redact` and `embedAssets` run before the measurement but touch
neither the root's size attributes nor its rects, so the dimensions are
those of the file's content.) -/
def pageLayout (d : PageDoc) : ℚ × Orientation :=
  let wh := getSvgDimensions d
  let pdfHeight := pdfWidth / (wh.1 / wh.2)
  (pdfHeight, if pdfWidth > pdfHeight then Orientation.l else Orientation.p)

/-- One page of the assembled output document. -/
inductive Page where
  /-- A page created with the computed format; `hasImage` is false when
  the rasterized bitmap was never drawn onto it (failure after the page
  was added). -/
  | rendered (width height : ℚ) (orient : Orientation) (hasImage : Bool)
  /-- The inserted inside-cover page, with the fill color painted on it
  (`none` = left unfilled). -/
  | insideCover (width height : ℚ) (orient : Orientation) (fill : Option String)
  /-- A page carrying the diagnostic text written in the catch block. -/
  | errorPlaceholder (label : String)
deriving DecidableEq, Repr

/-- Where, if anywhere, the platform steps inside the per-page `try`
block raise.  The pure computations cannot; the genuine failure points
are the async/canvas/jsPDF calls: either before the jsPDF page for this
file is created (`embedAssets`), or at
rasterization/`addImage` — after `new jsPDF`/`addPage` already added
the page. -/
inductive FailStep where
  | beforeLayout
  | atRasterize
deriving DecidableEq, Repr

/-- An input to `PdfGenerator.generate`: a `ProcessedSVG` whose
`processedContent` is modelled as its parsed page view, together with
the environment's verdict on whether (and where) this page's platform
steps throw. -/
structure ExportFile where
  name : String
  content : Option PageDoc
  failure : Option FailStep
deriving DecidableEq, Repr

/-- The diagnostic text `doc.text('Error processing page: ' + name)`. -/
def errorLabel (name : String) : String :=
  "Error processing page: " ++ name

/-- The pages a non-first file contributes
(src/services/pdfGenerator.ts:12-80): null content is skipped entirely;
a pre-layout exception yields only the catch's placeholder page; a
rasterization exception leaves the already-added blank page and then
the placeholder; success yields the rendered page. -/
def pagesFor (f : ExportFile) : List Page :=
  match f.content with
  | none => []
  | some d =>
    match f.failure with
    | some FailStep.beforeLayout => [Page.errorPlaceholder (errorLabel f.name)]
    | some FailStep.atRasterize =>
      let ho := pageLayout d
      [Page.rendered pdfWidth ho.1 ho.2 false,
       Page.errorPlaceholder (errorLabel f.name)]
    | none =>
      let ho := pageLayout d
      [Page.rendered pdfWidth ho.1 ho.2 true]

/-- The inside-cover fill (src/services/pdfGenerator.ts:54-67): detect
the background color of `files[1]` (default `'#FFFFFF'` when it is
missing, has null content, detection returns null, or returns a falsy
empty fill), then fill only when it is neither `#ffffff` nor `white`
case-insensitively. -/
def coverFill (next : Option ExportFile) : Option String :=
  let bgColor :=
    match next with
    | some nf =>
      match nf.content with
      | some d2 =>
        match detectBackgroundColor d2 with
        | some c => if c = "" then "#FFFFFF" else c
        | none => "#FFFFFF"
      | none => "#FFFFFF"
    | none => "#FFFFFF"
  if asciiLower bgColor ≠ "#ffffff" ∧ asciiLower bgColor ≠ "white" then some bgColor
  else none

/-- The pages the file at index 0 contributes, including the
inside-cover logic (src/services/pdfGenerator.ts:51-68): only when the
first page completes successfully (the cover block sits after
`addImage` inside the `try`) and `files.length > 1`, one extra page is
added with the same `[pdfWidth, pdfHeight]` format and `orientation`
that were computed for this first page, filled per `coverFill` from
`files[1]`. -/
def pagesFirst (f : ExportFile) (rest : List ExportFile) : List Page :=
  match f.content with
  | none => []
  | some d =>
    match f.failure with
    | some FailStep.beforeLayout => [Page.errorPlaceholder (errorLabel f.name)]
    | some FailStep.atRasterize =>
      let ho := pageLayout d
      [Page.rendered pdfWidth ho.1 ho.2 false,
       Page.errorPlaceholder (errorLabel f.name)]
    | none =>
      let ho := pageLayout d
      if rest.isEmpty then [Page.rendered pdfWidth ho.1 ho.2 true]
      else
        [Page.rendered pdfWidth ho.1 ho.2 true,
         Page.insideCover pdfWidth ho.1 ho.2 (coverFill rest.head?)]

/-- `PdfGenerator.generate` (src/services/pdfGenerator.ts:7): the
sequential loop over the ordered file list; the jsPDF document is the
concatenation of the pages each file appends. -/
def generatePages (files : List ExportFile) : List Page :=
  match files with
  | [] => []
  | f :: rest => pagesFirst f rest ++ rest.flatMap pagesFor

/-- The saved output (src/services/pdfGenerator.ts:82): `doc.save` runs
iff `doc` was ever created, i.e. iff at least one page was appended. -/
def generateOutput (files : List ExportFile) : Option (List Page) :=
  let ps := generatePages files
  if ps.isEmpty then none else some ps

/-! ## Tag toggle (`handleSvgClick`, src/components/TaggingEditor.tsx:199) -/

/-- JS `Set.prototype.add` on an insertion-ordered set. -/
def jsSetAdd (l : List String) (x : String) : List String :=
  if x ∈ l then l else l ++ [x]

/-- JS `Set.prototype.delete` on an insertion-ordered set. -/
def jsSetDelete (l : List String) (x : String) : List String :=
  l.filter (fun y => y ≠ x)

/-- JS `new Set(array)`: first-occurrence deduplication, insertion
order kept. -/
def jsSetOfList (l : List String) : List String :=
  l.foldl jsSetAdd []

/-- Reading the `data-tags` attribute
(src/components/TaggingEditor.tsx:217-218): a falsy (absent or empty)
attribute gives the empty list, else JS `split(',')`. -/
def splitTags (attr : Option String) : List String :=
  match attr with
  | none => []
  | some s => if s = "" then [] else splitComma s

/-- The toggle loop (src/components/TaggingEditor.tsx:221-227): for
each active tag in iteration order, delete it when present, else add
it. -/
def toggleOnce (active : List String) (cur : List String) : List String :=
  active.foldl (fun acc tag => if tag ∈ acc then jsSetDelete acc tag else jsSetAdd acc tag) cur

/-- One click on an element (src/components/TaggingEditor.tsx:217-235):
parse the current attribute into a `Set`, toggle every active tag, then
serialize — `join(',')` written back, or the attribute removed when the
join is empty. -/
def toggleClick (active : List String) (attr : Option String) : Option String :=
  let current := jsSetOfList (splitTags attr)
  let toggled := toggleOnce active current
  let newTags := joinComma toggled
  if newTags = "" then none else some newTags

/-- The element's tag set, as the spec reads it: the set of names its
attribute parses to. -/
def tagSetOf (attr : Option String) : Finset String :=
  (jsSetOfList (splitTags attr)).toFinset

/-! ## Shared lemmas -/

/-- `redact` never changes which `data-tags` the images carry. -/
theorem redact_images_dataTags (c : SvgMarkup) :
    (redact c).images.map SvgImage.dataTags = c.images.map SvgImage.dataTags := by
  unfold redact
  by_cases hA : c.images.any (fun i => shouldRedact i.dataTags) = true
  · simp only [hA, if_true, List.map_map]
    apply List.map_congr_left
    intro i _
    by_cases hi : shouldRedact i.dataTags = true
    · simp [hi]
    · simp [hi]
  · simp [hA]

/-- `redact` never changes which `data-tags` the text containers carry. -/
theorem redact_texts_dataTags (c : SvgMarkup) :
    (redact c).texts.map SvgTextEl.dataTags = c.texts.map SvgTextEl.dataTags := by
  unfold redact
  by_cases hA : c.images.any (fun i => shouldRedact i.dataTags) = true
  all_goals
    simp only [hA, if_true, if_false, List.map_map]
    apply List.map_congr_left
    intro t _
    by_cases ht : shouldRedact t.dataTags = true
    · simp [ht]
    · simp [ht]

/-! ## Concrete instances used by counterexamples and witnesses -/

/-- A redaction-tagged text container holding the text node `"Hi"`. -/
def exText : SvgTextEl := { dataTags := some "redact-text", textNodes := ["Hi"] }

/-- A minimal document with one redaction-tagged text element. -/
def exMarkup : SvgMarkup :=
  { defsPresent := false, defsIds := [], otherIds := [], images := [], texts := [exText] }

/-- A valid (bundle-complete) collection entry holding `exMarkup`. -/
def exExportDoc : ExportDoc :=
  { name := "page.svg", status := ProcessingStatus.COMPLETED, markup := some exMarkup }

/-- A non-markup intake payload. -/
def exBadText : String := "plain text, no markup"

/-! ## C6 -/

/-- C6 (code_bug evidence): the replacement string in the source is the
three-character mojibake sequence, so masking `"Hi"` yields a
six-character string — the masked text does not have the same character
count as the original, contradicting the claimed length preservation
(which the spec states and the source visibly intended as a single
masking glyph). -/
theorem C6_claim :
    maskText "Hi" = maskGlyph ++ maskGlyph
    ∧ (maskText "Hi").length = 6
    ∧ ("Hi" : String).length = 2
    ∧ maskGlyph.length = 3 := by decide

/-! ## C2 -/

/-- C2 counterexample: a bundle-complete document whose markup holds a
redaction-tagged `"Hi"` text node is written into the archive under its
original name, but with the redaction transform already applied — the
stored text node is the masked string, not the original, refuting
"no redaction transform applied". -/
theorem C2_counterexample :
    zipMarkupEntries [exExportDoc] =
      [("page.svg",
        { defsPresent := false, defsIds := [], otherIds := [], images := [],
          texts := [{ dataTags := some "redact-text", textNodes := [maskText "Hi"] }] })]
    ∧ maskText "Hi" ≠ "Hi" := by decide

/-- C2 (amended): for every document eligible for archive export
(status awaiting-bundle/IDLE or bundle-complete/COMPLETED) with
non-null markup, the archive receives, under the document's original
name, the redact-transformed markup (text masked, blur filter applied)
— not the untransformed one; tag annotations themselves are preserved
by the transform. -/
theorem C2_claim (files : List ExportDoc) (f : ExportDoc) (c : SvgMarkup)
    (hmem : f ∈ files) (hval : isValidStatusForExport f.status = true)
    (hc : f.markup = some c) :
    (f.name, redact c) ∈ zipMarkupEntries files
    ∧ (redact c).images.map SvgImage.dataTags = c.images.map SvgImage.dataTags
    ∧ (redact c).texts.map SvgTextEl.dataTags = c.texts.map SvgTextEl.dataTags := by
  refine ⟨?_, redact_images_dataTags c, redact_texts_dataTags c⟩
  unfold zipMarkupEntries
  apply List.mem_filterMap.mpr
  refine ⟨f, List.mem_filter.mpr ⟨hmem, hval⟩, ?_⟩
  rw [hc]
  rfl

/-- C2 witness: the amended statement holds at the concrete document. -/
theorem C2_witness :
    ("page.svg", redact exMarkup) ∈ zipMarkupEntries [exExportDoc] :=
  (C2_claim [exExportDoc] exExportDoc exMarkup (by decide) (by decide) rfl).1

/-! ## C8 -/

/-- A document whose only element carrying the id `redact-blur` sits
*outside* the definitions section, plus one redaction-tagged image. -/
def c8strayDoc : SvgMarkup :=
  { defsPresent := false, defsIds := [], otherIds := ["redact-blur"],
    images := [{ dataTags := some "redact-image", filterAttr := none }], texts := [] }

/-- A document that already holds the filter definition inside its
definitions section, plus one redaction-tagged image. -/
def c8presentDoc : SvgMarkup :=
  { defsPresent := true, defsIds := [filterId], otherIds := [],
    images := [{ dataTags := some "redact-image", filterAttr := none }], texts := [] }

/-- C8 counterexample: on a document carrying `id="redact-blur"` on a
non-defs element, a redaction target exists and its filter reference is
set to the fixed id, yet no blur-filter definition is created in the
definitions section — `getElementById` found the stray element, so the
creation step was skipped and the claimed "the definition is ensured to
exist" fails. -/
theorem C8_counterexample :
    (redact c8strayDoc).defsIds = []
    ∧ (redact c8strayDoc).images
        = [{ dataTags := some "redact-image", filterAttr := some "url(#redact-blur)" }]
    ∧ c8strayDoc.images.any (fun i => shouldRedact i.dataTags) = true := by decide

/-- C8 (amended): the transform adds at most one blur-filter definition
under the fixed id; whenever any element of the document — inside the
definitions section or not — already carries that id, the definition
list is left exactly as it was (so re-running never duplicates it);
when a target image exists, every target image's filter reference is
set to the id, and the definition is ensured to exist in the
definitions section only provided no element *outside* it already
carries the id (the existence check is a whole-document
`getElementById`, so a stray element with that id suppresses
creation). -/
theorem C8_claim (d : SvgMarkup) :
    (redact d).defsIds.count filterId ≤ max 1 (d.defsIds.count filterId)
    ∧ ((filterId ∈ d.defsIds ∨ filterId ∈ d.otherIds) → (redact d).defsIds = d.defsIds)
    ∧ (d.images.any (fun i => shouldRedact i.dataTags) = true →
        (filterId ∉ d.otherIds → filterId ∈ (redact d).defsIds)
        ∧ ∀ i ∈ (redact d).images, shouldRedact i.dataTags = true →
            i.filterAttr = some ("url(#" ++ filterId ++ ")")) := by
  by_cases hA : d.images.any (fun i => shouldRedact i.dataTags) = true
  · by_cases hG : filterId ∈ d.defsIds ∨ filterId ∈ d.otherIds
    · refine ⟨?_, fun _ => ?_, fun _ => ⟨?_, ?_⟩⟩
      · simp [redact, hA, hG, le_max_right]
      · simp [redact, hA, hG]
      · intro hother
        have hF : filterId ∈ d.defsIds := by
          rcases hG with hF | hO
          · exact hF
          · exact absurd hO hother
        simp [redact, hA, hG, hF]
      · intro i hi hredact
        simp only [redact, hA, if_true, hG] at hi
        obtain ⟨j, _, rfl⟩ := List.mem_map.mp hi
        by_cases hj : shouldRedact j.dataTags = true
        · simp [hj]
        · simp [hj] at hredact
    · have hF : filterId ∉ d.defsIds := fun h => hG (Or.inl h)
      refine ⟨?_, fun hmem => absurd hmem hG, fun _ => ⟨?_, ?_⟩⟩
      · have hcount : d.defsIds.count filterId = 0 := List.count_eq_zero.mpr hF
        simp [redact, hA, hG, hcount]
      · intro _
        simp [redact, hA, hG]
      · intro i hi hredact
        simp only [redact, hA, if_true, hG] at hi
        obtain ⟨j, _, rfl⟩ := List.mem_map.mp hi
        by_cases hj : shouldRedact j.dataTags = true
        · simp [hj]
        · simp [hj] at hredact
  · refine ⟨?_, fun _ => ?_, fun hmem => absurd hmem hA⟩
    · simp [redact, hA, le_max_right]
    · simp [redact, hA]

/-- C8 witness: on the document already holding the definition inside
defs, re-running leaves the definition list unchanged and the id is
still present. -/
theorem C8_witness :
    (redact c8presentDoc).defsIds = [filterId]
    ∧ filterId ∈ (redact c8presentDoc).defsIds :=
  ⟨(C8_claim c8presentDoc).2.1 (Or.inl (by decide)),
   ((C8_claim c8presentDoc).2.2 (by decide)).1 (by decide)⟩

/-! ## C9 -/

/-- C9 counterexample: a concrete non-markup payload (certified
malformed by the modelled platform parser check) is taken in with
status `IDLE`, its raw text stored as content, and that status is
export-eligible — so a malformed document does enter the collection in
a usable state, refuting rejection at intake. -/
theorem C9_counterexample :
    isParseableMarkup exBadText = false
    ∧ (intakeDocument "bad.svg" exBadText).status = ProcessingStatus.IDLE
    ∧ (intakeDocument "bad.svg" exBadText).processedContent = some exBadText
    ∧ isValidStatusForExport (intakeDocument "bad.svg" exBadText).status = true := by
  decide

/-- C9 (amended): intake never rejects: every input document — well
formed or not — enters the collection with status `IDLE` (an
export-eligible status) and its raw text stored; a parse failure is
only detected if and when resource bundling is attempted, which then
marks the document `ERROR`. -/
theorem C9_claim (name raw : String) :
    (intakeDocument name raw).status = ProcessingStatus.IDLE
    ∧ isValidStatusForExport (intakeDocument name raw).status = true
    ∧ (isParseableMarkup raw = false →
        (bundleIntakeDoc (intakeDocument name raw)).status = ProcessingStatus.ERROR) := by
  refine ⟨rfl, rfl, fun h => ?_⟩
  simp [bundleIntakeDoc, intakeDocument, h]

/-- C9 witness: the amended statement at the concrete malformed input. -/
theorem C9_witness :
    (bundleIntakeDoc (intakeDocument "bad.svg" exBadText)).status = ProcessingStatus.ERROR :=
  (C9_claim "bad.svg" exBadText).2.2 (by decide)

/-! ## C10 -/

/-- C10 (confirmed): a file whose processed content is null contributes
no page at all — neither a rendered page nor an error placeholder — and
the rest of the pipeline is unaffected by it: at the head of the list
the output is exactly the pages of the remaining files. -/
theorem C10_claim (f : ExportFile) (rest : List ExportFile) (h : f.content = none) :
    pagesFor f = [] ∧ generatePages (f :: rest) = rest.flatMap pagesFor := by
  constructor
  · simp [pagesFor, h]
  · simp [generatePages, pagesFirst, h]

/-- A null-content export file. -/
def exNullFile : ExportFile := { name := "skipped.svg", content := none, failure := none }

/-- A well-formed A4-portrait export file. -/
def exGoodFile : ExportFile :=
  { name := "kept.svg"
    content := some
      { viewBoxDims := some (210, 297), widthNum := none, heightNum := none,
        widthRaw := none, heightRaw := none, bgStyle := none, rects := [] }
    failure := none }

/-- C10 witness: concrete run with a null-content file at the head. -/
theorem C10_witness :
    pagesFor exNullFile = []
    ∧ generatePages [exNullFile, exGoodFile] = [exGoodFile].flatMap pagesFor :=
  C10_claim exNullFile [exGoodFile] rfl

/-! ## C1 -/

/-- A square page: viewBox 0 0 100 100, giving output 210x210 portrait. -/
def c1docA : PageDoc :=
  { viewBoxDims := some (100, 100), widthNum := none, heightNum := none,
    widthRaw := none, heightRaw := none, bgStyle := none, rects := [] }

/-- A taller page: viewBox 0 0 100 200, giving output 210x420 portrait. -/
def c1docB : PageDoc :=
  { viewBoxDims := some (100, 200), widthNum := none, heightNum := none,
    widthRaw := none, heightRaw := none, bgStyle := none, rects := [] }

/-- First export file (square). -/
def c1fileA : ExportFile := { name := "a.svg", content := some c1docA, failure := none }

/-- Second export file (tall). -/
def c1fileB : ExportFile := { name := "b.svg", content := some c1docB, failure := none }

/-- C1 counterexample: exporting a 210x210 first page followed by a
210x420 second page inserts the inside-cover with height 210 — the
*first* page's computed size — while the second document's computed
page height is 420; the cover's size does not equal the second page's,
refuting the claim as stated. -/
theorem C1_counterexample :
    generatePages [c1fileA, c1fileB] =
      [Page.rendered 210 210 Orientation.p true,
       Page.insideCover 210 210 Orientation.p none,
       Page.rendered 210 420 Orientation.p true]
    ∧ (pageLayout c1docB).1 = 420
    ∧ ((210 : ℚ) = 420 → False) := by
  refine ⟨?_, ?_, by norm_num⟩
  · simp [generatePages, pagesFirst, pagesFor, pageLayout, getSvgDimensions,
          c1fileA, c1fileB, c1docA, c1docB, pdfWidth, coverFill,
          detectBackgroundColor]
    norm_num
    decide
  · simp [pageLayout, getSvgDimensions, c1docB, pdfWidth]
    norm_num

/-- C1 (amended): immediately after the first page completes
successfully, when more than one document is being exported, exactly
one extra blank inside-cover page is inserted, and its size and
orientation equal the computed size and orientation of the *first*
document's page (only its fill color is detected from the second
document). -/
theorem C1_claim (f : ExportFile) (d : PageDoc) (rest : List ExportFile)
    (hc : f.content = some d) (hf : f.failure = none) (hr : rest ≠ []) :
    generatePages (f :: rest) =
      Page.rendered pdfWidth (pageLayout d).1 (pageLayout d).2 true
        :: Page.insideCover pdfWidth (pageLayout d).1 (pageLayout d).2 (coverFill rest.head?)
        :: rest.flatMap pagesFor := by
  obtain ⟨r, rs, rfl⟩ := List.exists_cons_of_ne_nil hr
  simp [generatePages, pagesFirst, hc, hf]

/-- C1 witness: the amended statement at the concrete two-file input. -/
theorem C1_witness :
    generatePages [c1fileA, c1fileB] =
      Page.rendered pdfWidth (pageLayout c1docA).1 (pageLayout c1docA).2 true
        :: Page.insideCover pdfWidth (pageLayout c1docA).1 (pageLayout c1docA).2
            (coverFill [c1fileB].head?)
        :: [c1fileB].flatMap pagesFor :=
  C1_claim c1fileA c1docA [c1fileB] rfl rfl (List.cons_ne_nil _ _)

/-! ## C3 -/

/-- Did this output page complete the whole per-page pipeline (its
rasterized bitmap was drawn onto it)? -/
def isSuccessPage (p : Page) : Bool :=
  match p with
  | Page.rendered _ _ _ hasImage => hasImage
  | _ => false

/-- A file whose platform steps throw before its page is laid out. -/
def c3failFile : ExportFile :=
  { name := "p1.svg"
    content := some
      { viewBoxDims := none, widthNum := none, heightNum := none,
        widthRaw := none, heightRaw := none, bgStyle := none, rects := [] }
    failure := some FailStep.beforeLayout }

/-- C3 counterexample: a single page that raises an exception produces
an output document consisting of just the diagnostic placeholder — the
pipeline saves an output even though zero pages ever reached Success,
refuting the "if and only if" as stated. -/
theorem C3_counterexample :
    generateOutput [c3failFile] = some [Page.errorPlaceholder (errorLabel "p1.svg")]
    ∧ (generatePages [c3failFile]).any isSuccessPage = false := by decide

/-- `pagesFirst` contributes no page exactly when the content is null. -/
theorem pagesFirst_isEmpty (f : ExportFile) (rest : List ExportFile) :
    (pagesFirst f rest).isEmpty = f.content.isNone := by
  cases hc : f.content with
  | none => simp [pagesFirst, hc]
  | some d =>
    cases hf : f.failure with
    | none =>
      by_cases hr : rest.isEmpty = true <;> simp [pagesFirst, hc, hf, hr]
    | some st => cases st <;> simp [pagesFirst, hc, hf]

/-- `pagesFor` contributes no page exactly when the content is null. -/
theorem pagesFor_isEmpty (f : ExportFile) :
    (pagesFor f).isEmpty = f.content.isNone := by
  cases hc : f.content with
  | none => simp [pagesFor, hc]
  | some d =>
    cases hf : f.failure with
    | none => simp [pagesFor, hc, hf]
    | some st => cases st <;> simp [pagesFor, hc, hf]

/-- Emptiness of a list concatenation, componentwise. -/
theorem isEmpty_append (l l' : List Page) :
    (l ++ l').isEmpty = (l.isEmpty && l'.isEmpty) := by
  cases l <;> simp [List.isEmpty]

/-- The tail files' joint contribution is empty iff each file's content
is null. -/
theorem flatMap_pagesFor_isEmpty (rest : List ExportFile) :
    (rest.flatMap pagesFor).isEmpty = rest.all (fun g => g.content.isNone) := by
  induction rest with
  | nil => rfl
  | cons g gs ih =>
    rw [List.flatMap_cons, isEmpty_append, ih, List.all_cons, pagesFor_isEmpty]

/-- C3 (amended): the paginated export produces an output document iff
at least one input file has non-null processed content (a page that
merely reaches the error placeholder still yields an output); when
processing a page raises an exception before its page is laid out,
exactly the diagnostic placeholder page is emitted for it, and the
pipeline continues: the pages of the files before and after a given
file are assembled around its own contribution, in order. -/
theorem C3_claim (files : List ExportFile) :
    ((generateOutput files).isSome = files.any (fun f => f.content.isSome))
    ∧ (∀ (f : ExportFile) (d : PageDoc), f.content = some d →
        f.failure = some FailStep.beforeLayout →
        pagesFor f = [Page.errorPlaceholder (errorLabel f.name)])
    ∧ (∀ (f0 : ExportFile) (pre post : List ExportFile) (f : ExportFile),
        generatePages (f0 :: (pre ++ f :: post)) =
          pagesFirst f0 (pre ++ f :: post) ++ pre.flatMap pagesFor
            ++ pagesFor f ++ post.flatMap pagesFor) := by
  refine ⟨?_, ?_, ?_⟩
  · cases files with
    | nil => rfl
    | cons f rest =>
      have hsplit : (pagesFirst f rest ++ rest.flatMap pagesFor).isEmpty
          = (f.content.isNone && rest.all (fun g => g.content.isNone)) := by
        rw [isEmpty_append, flatMap_pagesFor_isEmpty, pagesFirst_isEmpty]
      have hnotall : ∀ gs : List ExportFile,
          (!gs.all fun g => g.content.isNone) = gs.any (fun g => g.content.isSome) := by
        intro gs
        induction gs with
        | nil => rfl
        | cons a t iht =>
          simp only [List.all_cons, List.any_cons, Bool.not_and, iht]
          cases a.content <;> rfl
      simp only [generateOutput, generatePages]
      by_cases hps : (pagesFirst f rest ++ rest.flatMap pagesFor).isEmpty = true
      · rw [if_pos hps]
        rw [hsplit] at hps
        rw [Bool.and_eq_true] at hps
        have h1 : f.content.isNone = true := hps.1
        have h2 : rest.all (fun g => g.content.isNone) = true := hps.2
        rw [List.any_cons]
        rw [← hnotall rest, h2]
        cases hc : f.content with
        | none => rfl
        | some d => rw [hc] at h1; exact absurd h1 (by simp)
      · rw [if_neg hps]
        have : (pagesFirst f rest ++ rest.flatMap pagesFor).isEmpty = false :=
          Bool.eq_false_iff.mpr hps
        rw [hsplit] at this
        rw [List.any_cons, Option.isSome_some]
        have := Bool.and_eq_false_iff.mp this
        rcases this with h1 | h2
        · cases hc : f.content with
          | none => rw [hc] at h1; exact absurd h1 (by simp)
          | some d => rfl
        · rw [← hnotall rest, h2]
          simp
  · intro f d hc hf
    simp [pagesFor, hc, hf]
  · intro f0 pre post f
    simp [generatePages, List.flatMap_append, List.flatMap_cons, List.append_assoc]

/-- C3 witness: the amended statement instantiated at the concrete
failing file (its contribution is exactly the placeholder page). -/
theorem C3_witness :
    pagesFor c3failFile = [Page.errorPlaceholder (errorLabel c3failFile.name)] :=
  (C3_claim []).2.1 c3failFile
    { viewBoxDims := none, widthNum := none, heightNum := none,
      widthRaw := none, heightRaw := none, bgStyle := none, rects := [] }
    rfl rfl

/-! ## C4 / C5: asset-resolution lemmas -/

/-- A non-network relative reference with no pool match: not empty, not
a data reference, not a fragment, not an absolute `http` address, and
the caller's pool has nothing under its derived filename. -/
def relNoPool (pool : String → Option Blob) (h : String) : Prop :=
  h ≠ "" ∧ strStarts h "data:" = false ∧ strStarts h "#" = false ∧
  strStarts h "http" = false ∧ pool (getFilename h) = none

/-- The error message pushed for a failed fetch of `u`. -/
def fetchErrorMsg (u : String) : String :=
  "Failed to load " ++ u ++ ": Failed to fetch " ++ u

/-- Looking a key up in a concatenated association list. -/
theorem mapLookup_append (m m' : List (String × String)) (r : String) :
    mapLookup (m ++ m') r =
      match mapLookup m r with
      | some v => some v
      | none => mapLookup m' r := by
  induction m with
  | nil => rfl
  | cons p rest ih =>
    by_cases hp : p.1 = r
    · simp [mapLookup, hp]
    · simp [mapLookup, hp, ih]

/-- Every run of `processAsset` either leaves the dedup map unchanged
or appends exactly one binding for the processed reference itself — and
in the latter case that reference had a pool match or was an absolute
`http` address. -/
theorem processAsset_urlMap_shape (pool : String → Option Blob)
    (fetchUrl : String → Option FetchResult) (randSuffix : Nat → String)
    (st : ResolveState) (href : String) (isFont : Bool) :
    (processAsset pool fetchUrl randSuffix st href isFont).1.urlMap = st.urlMap ∨
    (((pool (getFilename href)).isSome = true ∨ strStarts href "http" = true) ∧
      ∃ n, (processAsset pool fetchUrl randSuffix st href isFont).1.urlMap
        = st.urlMap ++ [(href, n)]) := by
  by_cases h0 : (href = "" || strStarts href "data:" || strStarts href "#") = true
  · unfold processAsset
    rw [if_pos h0]
    exact Or.inl rfl
  · cases hm : mapLookup st.urlMap href with
    | some n =>
      unfold processAsset
      rw [if_neg h0]
      simp only [hm]
      first
      | exact Or.inl rfl
      | exact Or.inl trivial
    | none =>
      cases hp : pool (getFilename href) with
      | some b =>
        unfold processAsset
        rw [if_neg h0]
        simp only [hm, hp]
        first
        | exact Or.inr ⟨Or.inl rfl, _, rfl⟩
        | exact Or.inr ⟨Or.inl trivial, _, rfl⟩
      | none =>
        by_cases hh : strStarts href "http" = true
        · cases hf : fetchUrl href with
          | none =>
            unfold processAsset
            rw [if_neg h0]
            simp only [hm, hp, hh, if_true, hf]
            first
            | exact Or.inl rfl
            | exact Or.inl trivial
          | some fr =>
            unfold processAsset
            rw [if_neg h0]
            simp only [hm, hp, hh, if_true, hf]
            first
            | exact Or.inr ⟨Or.inr hh, _, rfl⟩
            | exact Or.inr ⟨Or.inr trivial, _, rfl⟩
        · unfold processAsset
          rw [if_neg h0]
          simp only [hm, hp]
          rw [if_neg hh]
          first
          | exact Or.inl rfl
          | exact Or.inl trivial

/-- Every run of `processAsset` either leaves the error list unchanged
or appends exactly the fetch-failure message for its own (`http`)
reference. -/
theorem processAsset_errors_shape (pool : String → Option Blob)
    (fetchUrl : String → Option FetchResult) (randSuffix : Nat → String)
    (st : ResolveState) (href : String) (isFont : Bool) :
    (processAsset pool fetchUrl randSuffix st href isFont).1.errors = st.errors ∨
    (strStarts href "http" = true ∧
      (processAsset pool fetchUrl randSuffix st href isFont).1.errors
        = st.errors ++ [fetchErrorMsg href]) := by
  by_cases h0 : (href = "" || strStarts href "data:" || strStarts href "#") = true
  · unfold processAsset
    rw [if_pos h0]
    exact Or.inl rfl
  · cases hm : mapLookup st.urlMap href with
    | some n =>
      unfold processAsset
      rw [if_neg h0]
      simp only [hm]
      first
      | exact Or.inl rfl
      | exact Or.inl trivial
    | none =>
      cases hp : pool (getFilename href) with
      | some b =>
        unfold processAsset
        rw [if_neg h0]
        simp only [hm, hp]
        first
        | exact Or.inl rfl
        | exact Or.inl trivial
      | none =>
        by_cases hh : strStarts href "http" = true
        · cases hf : fetchUrl href with
          | none =>
            unfold processAsset
            rw [if_neg h0]
            simp only [hm, hp, hh, if_true, hf]
            first
            | exact Or.inr ⟨hh, rfl⟩
            | exact Or.inr ⟨trivial, rfl⟩
          | some fr =>
            unfold processAsset
            rw [if_neg h0]
            simp only [hm, hp, hh, if_true, hf]
            first
            | exact Or.inl rfl
            | exact Or.inl trivial
        · unfold processAsset
          rw [if_neg h0]
          simp only [hm, hp]
          rw [if_neg hh]
          first
          | exact Or.inl rfl
          | exact Or.inl trivial

/-- The dedup map never maps a relative-no-pool-match reference. -/
def mapOk (pool : String → Option Blob) (st : ResolveState) : Prop :=
  ∀ r, relNoPool pool r → mapLookup st.urlMap r = none

/-- Every recorded error is the fetch-failure message of some absolute
`http` reference. -/
def errorsOk (st : ResolveState) : Prop :=
  ∀ e ∈ st.errors, ∃ u, strStarts u "http" = true ∧ e = fetchErrorMsg u

/-- `processAsset` preserves `mapOk`. -/
theorem processAsset_mapOk (pool : String → Option Blob)
    (fetchUrl : String → Option FetchResult) (randSuffix : Nat → String)
    (st : ResolveState) (href : String) (isFont : Bool) (hst : mapOk pool st) :
    mapOk pool (processAsset pool fetchUrl randSuffix st href isFont).1 := by
  intro r hr
  rcases processAsset_urlMap_shape pool fetchUrl randSuffix st href isFont with
    hsame | ⟨hbranch, n, happ⟩
  · rw [hsame]; exact hst r hr
  · rw [happ, mapLookup_append, hst r hr]
    have hne : href ≠ r := by
      intro hEq
      subst hEq
      rcases hbranch with hpoolhit | hhttp
      · rw [hr.2.2.2.2] at hpoolhit
        exact absurd hpoolhit (by simp [Option.isSome])
      · rw [hr.2.2.2.1] at hhttp
        exact absurd hhttp (by simp)
    simp [mapLookup, hne]

/-- `processAsset` preserves `errorsOk`. -/
theorem processAsset_errorsOk (pool : String → Option Blob)
    (fetchUrl : String → Option FetchResult) (randSuffix : Nat → String)
    (st : ResolveState) (href : String) (isFont : Bool) (hst : errorsOk st) :
    errorsOk (processAsset pool fetchUrl randSuffix st href isFont).1 := by
  intro e he
  rcases processAsset_errors_shape pool fetchUrl randSuffix st href isFont with
    hsame | ⟨hhttp, happ⟩
  · rw [hsame] at he; exact hst e he
  · rw [happ] at he
    rcases List.mem_append.mp he with hold | hnew
    · exact hst e hold
    · exact ⟨href, hhttp, by simpa using hnew⟩

/-- On a reference that is relative with no pool match (and not yet in
the dedup map), `processAsset` is the identity on the state and
resolves to nothing. -/
theorem processAsset_relApp (pool : String → Option Blob)
    (fetchUrl : String → Option FetchResult) (randSuffix : Nat → String)
    (st : ResolveState) (h : String) (isFont : Bool)
    (hmap : mapLookup st.urlMap h = none) (hrel : relNoPool pool h) :
    processAsset pool fetchUrl randSuffix st h isFont = (st, none) := by
  obtain ⟨h1, h2, h3, h4, h5⟩ := hrel
  unfold processAsset
  rw [if_neg (by simp [h1, h2, h3])]
  rw [hmap]
  simp only [h5]
  rw [if_neg (by simp [h4])]

/-- The image loop preserves `mapOk` and leaves every image whose
reference is relative with no pool match exactly where and as it was. -/
theorem resolveImages_spec (pool : String → Option Blob)
    (fetchUrl : String → Option FetchResult) (randSuffix : Nat → String) :
    ∀ (imgs : List BundleImage) (st : ResolveState), mapOk pool st →
      mapOk pool (resolveImages pool fetchUrl randSuffix st imgs).1
      ∧ ∀ (i : Nat) (img : BundleImage), imgs[i]? = some img →
          ∀ h, img.href = some h → relNoPool pool h →
            (resolveImages pool fetchUrl randSuffix st imgs).2[i]? = some img := by
  intro imgs
  induction imgs with
  | nil =>
    intro st hok
    refine ⟨hok, ?_⟩
    intro i img hi
    simp at hi
  | cons img0 rest ih =>
    intro st hok
    cases hhref : img0.href with
    | none =>
      have hstep : resolveImages pool fetchUrl randSuffix st (img0 :: rest)
          = ((resolveImages pool fetchUrl randSuffix st rest).1,
             img0 :: (resolveImages pool fetchUrl randSuffix st rest).2) := by
        simp [resolveImages, hhref]
      obtain ⟨ihok, ihidx⟩ := ih st hok
      rw [hstep]
      refine ⟨ihok, ?_⟩
      intro i img hi h hmem hrel
      cases i with
      | zero =>
        simp only [List.getElem?_cons_zero, Option.some.injEq] at hi
        simp [← hi]
      | succ j =>
        simp only [List.getElem?_cons_succ] at hi ⊢
        exact ihidx j img hi h hmem hrel
    | some h0 =>
      by_cases hempty : h0 = ""
      · have hstep : resolveImages pool fetchUrl randSuffix st (img0 :: rest)
            = ((resolveImages pool fetchUrl randSuffix st rest).1,
               img0 :: (resolveImages pool fetchUrl randSuffix st rest).2) := by
          simp [resolveImages, hhref, hempty]
        obtain ⟨ihok, ihidx⟩ := ih st hok
        rw [hstep]
        refine ⟨ihok, ?_⟩
        intro i img hi h hmem hrel
        cases i with
        | zero =>
          simp only [List.getElem?_cons_zero, Option.some.injEq] at hi
          simp [← hi]
        | succ j =>
          simp only [List.getElem?_cons_succ] at hi ⊢
          exact ihidx j img hi h hmem hrel
      · rcases hpa : processAsset pool fetchUrl randSuffix st h0 false with ⟨st', r⟩
        have hok' : mapOk pool st' := by
          have := processAsset_mapOk pool fetchUrl randSuffix st h0 false hok
          rw [hpa] at this
          exact this
        obtain ⟨ihok, ihidx⟩ := ih st' hok'
        cases hr : r with
        | some n =>
          have hstep : resolveImages pool fetchUrl randSuffix st (img0 :: rest)
              = ((resolveImages pool fetchUrl randSuffix st' rest).1,
                 ⟨some ("images/" ++ n)⟩ ::
                   (resolveImages pool fetchUrl randSuffix st' rest).2) := by
            simp [resolveImages, hhref, if_neg hempty, hpa, hr]
          rw [hstep]
          refine ⟨ihok, ?_⟩
          intro i img hi h hmem hrel
          cases i with
          | zero =>
            simp only [List.getElem?_cons_zero, Option.some.injEq] at hi
            subst hi
            rw [hhref] at hmem
            have hmem' : h0 = h := Option.some.injEq .. ▸ hmem
            subst hmem'
            have := processAsset_relApp pool fetchUrl randSuffix st h0 false
              (hok h0 hrel) hrel
            rw [hpa] at this
            have : r = none := congrArg Prod.snd this
            rw [hr] at this
            exact absurd this (by simp)
          | succ j =>
            simp only [List.getElem?_cons_succ] at hi ⊢
            exact ihidx j img hi h hmem hrel
        | none =>
          have hstep : resolveImages pool fetchUrl randSuffix st (img0 :: rest)
              = ((resolveImages pool fetchUrl randSuffix st' rest).1,
                 img0 :: (resolveImages pool fetchUrl randSuffix st' rest).2) := by
            simp [resolveImages, hhref, if_neg hempty, hpa, hr]
          rw [hstep]
          refine ⟨ihok, ?_⟩
          intro i img hi h hmem hrel
          cases i with
          | zero =>
            simp only [List.getElem?_cons_zero, Option.some.injEq] at hi
            simp [← hi]
          | succ j =>
            simp only [List.getElem?_cons_succ] at hi ⊢
            exact ihidx j img hi h hmem hrel

/-- The image loop preserves `errorsOk`. -/
theorem resolveImages_errorsOk (pool : String → Option Blob)
    (fetchUrl : String → Option FetchResult) (randSuffix : Nat → String) :
    ∀ (imgs : List BundleImage) (st : ResolveState), errorsOk st →
      errorsOk (resolveImages pool fetchUrl randSuffix st imgs).1 := by
  intro imgs
  induction imgs with
  | nil => intro st hok; exact hok
  | cons img0 rest ih =>
    intro st hok
    cases hhref : img0.href with
    | none =>
      have hstep : (resolveImages pool fetchUrl randSuffix st (img0 :: rest)).1
          = (resolveImages pool fetchUrl randSuffix st rest).1 := by
        simp [resolveImages, hhref]
      rw [hstep]
      exact ih st hok
    | some h0 =>
      by_cases hempty : h0 = ""
      · have hstep : (resolveImages pool fetchUrl randSuffix st (img0 :: rest)).1
            = (resolveImages pool fetchUrl randSuffix st rest).1 := by
          simp [resolveImages, hhref, hempty]
        rw [hstep]
        exact ih st hok
      · rcases hpa : processAsset pool fetchUrl randSuffix st h0 false with ⟨st', r⟩
        have hok' : errorsOk st' := by
          have := processAsset_errorsOk pool fetchUrl randSuffix st h0 false hok
          rw [hpa] at this
          exact this
        have hstep : (resolveImages pool fetchUrl randSuffix st (img0 :: rest)).1
            = (resolveImages pool fetchUrl randSuffix st' rest).1 := by
          cases hr : r with
          | some n => simp [resolveImages, hhref, if_neg hempty, hpa, hr]
          | none => simp [resolveImages, hhref, if_neg hempty, hpa, hr]
        rw [hstep]
        exact ih st' hok'

/-- The per-style font loop preserves `errorsOk`. -/
theorem resolveStyleUrls_errorsOk (pool : String → Option Blob)
    (fetchUrl : String → Option FetchResult) (randSuffix : Nat → String) :
    ∀ (urls : List String) (st : ResolveState), errorsOk st →
      errorsOk (resolveStyleUrls pool fetchUrl randSuffix st urls).1 := by
  intro urls
  induction urls with
  | nil => intro st hok; exact hok
  | cons u rest ih =>
    intro st hok
    by_cases hfont : isFontFile u = true
    · rcases hpa : processAsset pool fetchUrl randSuffix st u true with ⟨st', r⟩
      have hok' : errorsOk st' := by
        have := processAsset_errorsOk pool fetchUrl randSuffix st u true hok
        rw [hpa] at this
        exact this
      have hstep : (resolveStyleUrls pool fetchUrl randSuffix st (u :: rest)).1
          = (resolveStyleUrls pool fetchUrl randSuffix st' rest).1 := by
        cases hr : r with
        | some n => simp [resolveStyleUrls, hfont, hpa, hr]
        | none => simp [resolveStyleUrls, hfont, hpa, hr]
      rw [hstep]
      exact ih st' hok'
    · have hstep : (resolveStyleUrls pool fetchUrl randSuffix st (u :: rest)).1
          = (resolveStyleUrls pool fetchUrl randSuffix st rest).1 := by
        simp [resolveStyleUrls, hfont]
      rw [hstep]
      exact ih st hok

/-- The style loop preserves `errorsOk`. -/
theorem resolveStyles_errorsOk (pool : String → Option Blob)
    (fetchUrl : String → Option FetchResult) (randSuffix : Nat → String) :
    ∀ (stys : List BundleStyle) (st : ResolveState), errorsOk st →
      errorsOk (resolveStyles pool fetchUrl randSuffix st stys).1 := by
  intro stys
  induction stys with
  | nil => intro st hok; exact hok
  | cons sty rest ih =>
    intro st hok
    have hstep : (resolveStyles pool fetchUrl randSuffix st (sty :: rest)).1
        = (resolveStyles pool fetchUrl randSuffix
            (resolveStyleUrls pool fetchUrl randSuffix st sty.urls).1 rest).1 := by
      simp only [resolveStyles]
    rw [hstep]
    exact ih _ (resolveStyleUrls_errorsOk pool fetchUrl randSuffix sty.urls st hok)

/-! ## C4 -/

/-- A document with one image whose reference is relative and absent
from the pool. -/
def c4doc : BundleDoc := { images := [⟨some "missing.png"⟩], styles := [] }

/-- C4 counterexample: resolving a relative reference with no pool
match leaves the reference unmodified but records *no* resolution error
— the error list is empty, refuting "a resolution error naming the
reference is recorded". -/
theorem C4_counterexample :
    (bundleResources (fun _ => none) (fun _ => none) (fun _ => "r") c4doc).2.2 = []
    ∧ (bundleResources (fun _ => none) (fun _ => none) (fun _ => "r") c4doc).1.images
        = [⟨some "missing.png"⟩]
    ∧ (bundleResources (fun _ => none) (fun _ => none) (fun _ => "r") c4doc).2.1 = [] := by
  decide

/-- C4 (amended): for every non-network relative reference with no pool
match, the reference is left unmodified in the markup and *no*
resolution error is recorded for it — every error the call reports is
the fetch-failure message of some absolute `http` reference. -/
theorem C4_claim (pool : String → Option Blob)
    (fetchUrl : String → Option FetchResult) (randSuffix : Nat → String)
    (d : BundleDoc) (i : Nat) (img : BundleImage) (himg : d.images[i]? = some img)
    (h : String) (hh : img.href = some h) (hrel : relNoPool pool h) :
    (bundleResources pool fetchUrl randSuffix d).1.images[i]? = some img
    ∧ ∀ e ∈ (bundleResources pool fetchUrl randSuffix d).2.2,
        ∃ u, strStarts u "http" = true ∧ e = fetchErrorMsg u := by
  have h0 : mapOk pool ⟨[], [], [], 0⟩ := by
    intro r _
    rfl
  have e0 : errorsOk ⟨[], [], [], 0⟩ := by
    intro e he
    exact absurd he (List.not_mem_nil e)
  obtain ⟨hmap1, hidx⟩ :=
    resolveImages_spec pool fetchUrl randSuffix d.images ⟨[], [], [], 0⟩ h0
  refine ⟨hidx i img himg h hh hrel, ?_⟩
  intro e he
  have e1 := resolveImages_errorsOk pool fetchUrl randSuffix d.images ⟨[], [], [], 0⟩ e0
  have e2 := resolveStyles_errorsOk pool fetchUrl randSuffix d.styles
    (resolveImages pool fetchUrl randSuffix ⟨[], [], [], 0⟩ d.images).1 e1
  exact e2 e he

/-- C4 witness: the amended statement at the concrete relative
reference. -/
theorem C4_witness :
    (bundleResources (fun _ => none) (fun _ => none) (fun _ => "r") c4doc).1.images[0]?
      = some ⟨some "missing.png"⟩ :=
  (C4_claim (fun _ => none) (fun _ => none) (fun _ => "r") c4doc 0
    ⟨some "missing.png"⟩ rfl "missing.png" rfl
    ⟨by decide, by decide, by decide, by decide, rfl⟩).1

/-! ## C5 -/

/-- A document with one image referencing an absolute network address. -/
def c5doc : BundleDoc := { images := [⟨some "https://ex.com/a.jpg"⟩], styles := [] }

/-- An empty asset pool. -/
def c5pool : String → Option Blob := fun _ => none

/-- A network oracle that succeeds on exactly the referenced address. -/
def c5fetch : String → Option FetchResult :=
  fun u => if u = "https://ex.com/a.jpg" then some ⟨"JPGDATA", "image/jpeg"⟩ else none

/-- A fixed random-suffix stream. -/
def c5rand : Nat → String := fun _ => "abc123"

/-- C5 counterexample: fetching `https://ex.com/a.jpg` into an empty
pool rewrites the image reference to `images/asset_abc123.jpg` — a
synthesized name — not to `images/a.jpg`, even though the derived
filename `a.jpg` is perfectly good; this refutes the claim that the
derived filename is adopted and synthesis happens only for unreliable
font fetches. -/
theorem C5_counterexample :
    (bundleResources c5pool c5fetch c5rand c5doc).1.images
      = [⟨some "images/asset_abc123.jpg"⟩]
    ∧ (bundleResources c5pool c5fetch c5rand c5doc).1.images ≠ [⟨some "images/a.jpg"⟩]
    ∧ getFilename "https://ex.com/a.jpg" = "a.jpg"
    ∧ (bundleResources c5pool c5fetch c5rand c5doc).2.1
      = [⟨"https://ex.com/a.jpg", "asset_abc123.jpg", "JPGDATA"⟩] := by
  decide

/-- C5 (amended): every reference resolved by a successful network
fetch gets a *synthesized* local name `asset_<random>.<ext>` — the
derived filename is never adopted as the local name on the fetch path;
only the extension comes from the derived filename, with the MIME sniff
overriding it exactly for font fetches whose derived filename is not a
font file. -/
theorem C5_claim (pool : String → Option Blob)
    (fetchUrl : String → Option FetchResult) (randSuffix : Nat → String)
    (st : ResolveState) (href : String) (isFont : Bool) (fr : FetchResult)
    (hne : href ≠ "") (hdata : strStarts href "data:" = false)
    (hfrag : strStarts href "#" = false)
    (hmap : mapLookup st.urlMap href = none)
    (hpool : pool (getFilename href) = none)
    (hhttp : strStarts href "http" = true)
    (hfetch : fetchUrl href = some fr) :
    processAsset pool fetchUrl randSuffix st href isFont =
      ({ st with
          randIdx := st.randIdx + 1
          assets := st.assets ++
            [⟨href, "asset_" ++ randSuffix st.randIdx ++ "." ++
                synthExt (getFilename href) isFont fr.contentType, fr.blob⟩]
          urlMap := st.urlMap ++
            [(href, "asset_" ++ randSuffix st.randIdx ++ "." ++
                synthExt (getFilename href) isFont fr.contentType)] },
       some ("asset_" ++ randSuffix st.randIdx ++ "." ++
          synthExt (getFilename href) isFont fr.contentType)) := by
  unfold processAsset
  rw [if_neg (by simp [hne, hdata, hfrag])]
  simp only [hmap, hpool, hhttp, if_true, hfetch]

/-- C5 witness: the amended statement at the concrete fetched image. -/
theorem C5_witness :
    processAsset c5pool c5fetch c5rand ⟨[], [], [], 0⟩ "https://ex.com/a.jpg" false =
      (⟨[("https://ex.com/a.jpg", "asset_abc123.jpg")],
        [⟨"https://ex.com/a.jpg", "asset_abc123.jpg", "JPGDATA"⟩], [], 1⟩,
       some "asset_abc123.jpg") :=
  (C5_claim c5pool c5fetch c5rand ⟨[], [], [], 0⟩ "https://ex.com/a.jpg" false
      ⟨"JPGDATA", "image/jpeg"⟩ (by decide) (by decide) (by decide) rfl rfl
      (by decide) (by decide)).trans (by decide)

/-! ## C7: toggle-involution machinery -/

/-- Pieces produced by the splitter never contain the separator. -/
theorem charSplitOn_no_sep (sep : Char) :
    ∀ (cs acc : List Char), (∀ c ∈ acc, c ≠ sep) →
      ∀ p ∈ charSplitOn sep cs acc, ∀ c ∈ p, c ≠ sep := by
  intro cs
  induction cs with
  | nil =>
    intro acc hacc p hp c hc
    simp only [charSplitOn, List.mem_singleton] at hp
    subst hp
    exact hacc c (List.mem_reverse.mp hc)
  | cons c0 rest ih =>
    intro acc hacc p hp c hc
    by_cases h0 : c0 = sep
    · rw [charSplitOn, if_pos h0] at hp
      rcases List.mem_cons.mp hp with hp1 | hp2
      · subst hp1
        exact hacc c (List.mem_reverse.mp hc)
      · exact ih [] (by intro x hx; simp at hx) p hp2 c hc
    · rw [charSplitOn, if_neg h0] at hp
      refine ih (c0 :: acc) ?_ p hp c hc
      intro x hx
      rcases List.mem_cons.mp hx with hx1 | hx2
      · rw [hx1]; exact h0
      · exact hacc x hx2

/-- Splitting a separator-free block glued before the rest shifts the
block into the accumulator. -/
theorem charSplitOn_append_no_sep :
    ∀ (p acc cs : List Char), (∀ c ∈ p, c ≠ ',') →
      charSplitOn ',' (p ++ cs) acc = charSplitOn ',' cs (p.reverse ++ acc) := by
  intro p
  induction p with
  | nil => intro acc cs _; simp
  | cons c ps ih =>
    intro acc cs hp
    have hc : c ≠ ',' := hp c (List.mem_cons_self c ps)
    rw [List.cons_append, charSplitOn, if_neg hc,
      ih (c :: acc) cs (fun x hx => hp x (List.mem_cons_of_mem c hx))]
    simp

/-- Splitting the comma-join of non-empty piece lists whose pieces are
comma-free recovers the pieces exactly. -/
theorem charSplit_join_roundtrip :
    ∀ (l : List (List Char)), l ≠ [] → (∀ p ∈ l, ∀ c ∈ p, c ≠ ',') →
      charSplitOn ',' (charJoinComma l) [] = l := by
  intro l
  induction l with
  | nil => intro h; exact absurd rfl h
  | cons x rest ih =>
    intro _ hfree
    cases rest with
    | nil =>
      have hx : ∀ c ∈ x, c ≠ ',' := hfree x (List.mem_singleton_self x)
      have : charSplitOn ',' (x ++ []) [] = charSplitOn ',' [] (x.reverse ++ []) :=
        charSplitOn_append_no_sep x [] [] hx
      simpa [charJoinComma, charSplitOn] using this
    | cons y rest' =>
      have hx : ∀ c ∈ x, c ≠ ',' := hfree x (List.mem_cons_self x _)
      have hjoin : charJoinComma (x :: y :: rest') = x ++ ',' :: charJoinComma (y :: rest') :=
        rfl
      rw [hjoin, charSplitOn_append_no_sep x [] (',' :: charJoinComma (y :: rest')) hx]
      rw [charSplitOn, if_pos rfl]
      rw [ih (by simp) (fun p hp => hfree p (List.mem_cons_of_mem x hp))]
      simp

/-- Membership in a JS-set `add`. -/
theorem mem_jsSetAdd (l : List String) (y x : String) :
    x ∈ jsSetAdd l y ↔ x ∈ l ∨ x = y := by
  unfold jsSetAdd
  by_cases hy : y ∈ l
  · rw [if_pos hy]
    constructor
    · exact Or.inl
    · rintro (hx | rfl)
      · exact hx
      · exact hy
  · rw [if_neg hy]
    simp

/-- Membership in a JS-set `delete`. -/
theorem mem_jsSetDelete (l : List String) (y x : String) :
    x ∈ jsSetDelete l y ↔ x ∈ l ∧ x ≠ y := by
  simp [jsSetDelete]

/-- `jsSetAdd` keeps lists duplicate-free. -/
theorem nodup_jsSetAdd (l : List String) (x : String) (h : l.Nodup) :
    (jsSetAdd l x).Nodup := by
  unfold jsSetAdd
  by_cases hx : x ∈ l
  · rw [if_pos hx]; exact h
  · rw [if_neg hx]
    simp [List.nodup_append, h, hx]

/-- `jsSetDelete` keeps lists duplicate-free. -/
theorem nodup_jsSetDelete (l : List String) (x : String) (h : l.Nodup) :
    (jsSetDelete l x).Nodup :=
  List.Nodup.filter _ h

/-- The toggle loop keeps lists duplicate-free. -/
theorem nodup_toggleOnce (A : List String) :
    ∀ S : List String, S.Nodup → (toggleOnce A S).Nodup := by
  induction A with
  | nil => intro S h; exact h
  | cons t rest ih =>
    intro S h
    have hstep : ((if t ∈ S then jsSetDelete S t else jsSetAdd S t)).Nodup := by
      by_cases ht : t ∈ S
      · rw [if_pos ht]; exact nodup_jsSetDelete S t h
      · rw [if_neg ht]; exact nodup_jsSetAdd S t h
    exact ih _ hstep

/-- Elements of the toggled list come from the current set or the
active list. -/
theorem toggleOnce_subset (A : List String) :
    ∀ (S : List String) (x : String), x ∈ toggleOnce A S → x ∈ S ∨ x ∈ A := by
  induction A with
  | nil => intro S x hx; exact Or.inl hx
  | cons t rest ih =>
    intro S x hx
    have hx' : x ∈ toggleOnce rest (if t ∈ S then jsSetDelete S t else jsSetAdd S t) := hx
    rcases ih _ x hx' with hstep | hrest
    · by_cases ht : t ∈ S
      · rw [if_pos ht] at hstep
        exact Or.inl (mem_jsSetDelete S t x |>.mp hstep).1
      · rw [if_neg ht] at hstep
        rcases (mem_jsSetAdd S t x).mp hstep with hS | rfl
        · exact Or.inl hS
        · exact Or.inr (List.mem_cons_self _ _)
    · exact Or.inr (List.mem_cons_of_mem t hrest)

/-- Membership after toggling a duplicate-free active list: the element
is in the result iff its membership in the input disagrees with its
membership in the active list (an exclusive-or per tag). -/
theorem mem_toggleOnce (A : List String) (hnd : A.Nodup) :
    ∀ (S : List String) (x : String),
      x ∈ toggleOnce A S ↔ ((x ∈ S) ↔ x ∉ A) := by
  induction A with
  | nil => intro S x; simp [toggleOnce]
  | cons t rest ih =>
    intro S x
    have htr : t ∉ rest := (List.nodup_cons.mp hnd).1
    have hrest : rest.Nodup := (List.nodup_cons.mp hnd).2
    have hstep : x ∈ (if t ∈ S then jsSetDelete S t else jsSetAdd S t) ↔
        ((x ∈ S) ↔ ¬ x = t) := by
      by_cases ht : t ∈ S
      · rw [if_pos ht, mem_jsSetDelete]
        by_cases hxt : x = t
        · subst hxt; simp [ht]
        · simp [hxt]
      · rw [if_neg ht, mem_jsSetAdd]
        by_cases hxt : x = t
        · subst hxt; simp [ht]
        · simp [hxt]
    have hfold : x ∈ toggleOnce (t :: rest) S ↔
        x ∈ toggleOnce rest (if t ∈ S then jsSetDelete S t else jsSetAdd S t) :=
      Iff.rfl
    rw [hfold, ih hrest, hstep]
    by_cases hxt : x = t
    · subst hxt
      simp [htr]
    · have hmem : (x ∈ t :: rest) ↔ x ∈ rest := by simp [List.mem_cons, hxt]
      rw [show (¬x = t) = True from by simp [hxt], hmem]
      tauto

/-- `jsSetOfList` deduplicates without changing membership. -/
theorem mem_jsSetOfList (l : List String) (x : String) :
    x ∈ jsSetOfList l ↔ x ∈ l := by
  have hgen : ∀ (l acc : List String) (x : String),
      x ∈ l.foldl jsSetAdd acc ↔ x ∈ acc ∨ x ∈ l := by
    intro l
    induction l with
    | nil => intro acc x; simp
    | cons y ys ih =>
      intro acc x
      rw [List.foldl_cons, ih, mem_jsSetAdd]
      constructor
      · rintro ((hacc | rfl) | hys)
        · exact Or.inl hacc
        · exact Or.inr (List.mem_cons_self _ _)
        · exact Or.inr (List.mem_cons_of_mem y hys)
      · rintro (hacc | hcons)
        · exact Or.inl (Or.inl hacc)
        · rcases List.mem_cons.mp hcons with rfl | hys
          · exact Or.inl (Or.inr rfl)
          · exact Or.inr hys
  simpa using hgen l [] x

/-- `jsSetOfList` always yields a duplicate-free list. -/
theorem nodup_jsSetOfList (l : List String) : (jsSetOfList l).Nodup := by
  have hgen : ∀ (l acc : List String), acc.Nodup → (l.foldl jsSetAdd acc).Nodup := by
    intro l
    induction l with
    | nil => intro acc h; exact h
    | cons y ys ih =>
      intro acc h
      exact ih _ (nodup_jsSetAdd acc y h)
  exact hgen l [] List.nodup_nil

/-- On duplicate-free input, `jsSetOfList` is the identity. -/
theorem jsSetOfList_eq_self (l : List String) (h : l.Nodup) : jsSetOfList l = l := by
  have hgen : ∀ (l acc : List String), l.Nodup → (∀ x ∈ l, x ∉ acc) →
      l.foldl jsSetAdd acc = acc ++ l := by
    intro l
    induction l with
    | nil => intro acc _ _; simp
    | cons y ys ih =>
      intro acc hnd hdisj
      have hy : y ∉ acc := hdisj y (List.mem_cons_self _ _)
      rw [List.foldl_cons]
      rw [show jsSetAdd acc y = acc ++ [y] from by rw [jsSetAdd, if_neg hy]]
      rw [ih (acc ++ [y]) (List.nodup_cons.mp hnd).2]
      · simp
      · intro x hx
        simp only [List.mem_append, List.mem_singleton]
        rintro (hxa | rfl)
        · exact hdisj x (List.mem_cons_of_mem y hx) hxa
        · exact (List.nodup_cons.mp hnd).1 hx
  simpa using hgen l [] h

/-- Pieces parsed from a `data-tags` attribute never contain a comma. -/
theorem splitTags_comma_free (attr : Option String) :
    ∀ p ∈ splitTags attr, ',' ∉ p.data := by
  intro p hp
  cases attr with
  | none => simp [splitTags] at hp
  | some s =>
    by_cases hs : s = ""
    · simp [splitTags, hs] at hp
    · rw [splitTags, if_neg hs] at hp
      unfold splitComma charSplitComma at hp
      obtain ⟨piece, hpiece, rfl⟩ := List.mem_map.mp hp
      intro hc
      exact charSplitOn_no_sep ',' s.data [] (by intro c hc0; simp at hc0)
        piece hpiece ',' hc rfl

/-- The comma-join of a non-empty list of non-empty strings is not
empty. -/
theorem joinComma_ne_empty (l : List String) (hl : l ≠ [])
    (hp : ∀ p ∈ l, p ≠ "") : joinComma l ≠ "" := by
  cases l with
  | nil => exact absurd rfl hl
  | cons x rest =>
    cases rest with
    | nil =>
      intro hcontra
      exact hp x (List.mem_singleton_self x) hcontra
    | cons y rest' =>
      intro hcontra
      have hdata : charJoinComma (x.data :: y.data :: (rest'.map String.data)) = [] :=
        congrArg String.data hcontra
      rw [show charJoinComma (x.data :: y.data :: (rest'.map String.data))
          = x.data ++ ',' :: charJoinComma (y.data :: (rest'.map String.data)) from rfl]
        at hdata
      simp at hdata

/-- Parsing back the attribute one click writes recovers exactly the
toggled list, provided the toggled tags are non-empty and comma-free. -/
theorem splitTags_toggleClick (active : List String) (attr : Option String)
    (hfree : ∀ p ∈ toggleOnce active (jsSetOfList (splitTags attr)), ',' ∉ p.data)
    (hne : ∀ p ∈ toggleOnce active (jsSetOfList (splitTags attr)), p ≠ "") :
    splitTags (toggleClick active attr) = toggleOnce active (jsSetOfList (splitTags attr)) := by
  have hclick : toggleClick active attr
      = (if joinComma (toggleOnce active (jsSetOfList (splitTags attr))) = "" then none
         else some (joinComma (toggleOnce active (jsSetOfList (splitTags attr))))) := rfl
  by_cases hTnil : toggleOnce active (jsSetOfList (splitTags attr)) = []
  · rw [hclick, hTnil]
    rw [if_pos (by decide)]
    rfl
  · have hjoin_ne : joinComma (toggleOnce active (jsSetOfList (splitTags attr))) ≠ "" :=
      joinComma_ne_empty _ hTnil hne
    rw [hclick, if_neg hjoin_ne]
    have hsome : ∀ s : String, s ≠ "" → splitTags (some s) = splitComma s := by
      intro s hs
      simp only [splitTags]
      rw [if_neg hs]
    rw [hsome _ hjoin_ne]
    unfold splitComma charSplitComma joinComma
    rw [charSplit_join_roundtrip
      ((toggleOnce active (jsSetOfList (splitTags attr))).map String.data)
      (by simpa using hTnil)
      (by
        intro p hp c hc
        obtain ⟨q, hq, rfl⟩ := List.mem_map.mp hp
        intro hcomma
        subst hcomma
        exact hfree q hq hc)]
    rw [List.map_map]
    have hcomp : (String.mk ∘ String.data) = id := by
      funext s
      rfl
    rw [hcomp, List.map_id]

/-- One non-empty comma-free tag. -/
def c7tagA : String := "redact-text"

/-- A comma-containing active tag. -/
def c7tagComma : String := "a,b"

/-- C7 counterexample: toggling the active set `{"a,b"}` twice on an
element with no tags does not restore the empty tag set: the first
click writes `data-tags="a,b"`, the second re-reads it as the two tags
`a` and `b`, adds `a,b` again, and leaves the parsed tag set
`{a, b, a,b}` — not the original empty set. -/
theorem C7_counterexample :
    toggleClick [c7tagComma] (toggleClick [c7tagComma] none) = some "a,b,a,b"
    ∧ tagSetOf (toggleClick [c7tagComma] (toggleClick [c7tagComma] none)) ≠ tagSetOf none := by
  decide

/-- C7 (amended): toggling the same duplicate-free non-empty active tag
set twice restores the element's parsed tag set exactly — provided no
active tag is empty or contains the comma used as the attribute's list
separator, and the element's current attribute parses to no empty
piece.  (For a comma-containing active tag the round trip through the
comma-joined attribute breaks the involution, as the counterexample
shows.) -/
theorem C7_claim (attr : Option String) (active : List String)
    (hA : ∀ t ∈ active, t ≠ "" ∧ ',' ∉ t.data)
    (hnd : active.Nodup)
    (hattr : ∀ p ∈ splitTags attr, p ≠ "") :
    tagSetOf (toggleClick active (toggleClick active attr)) = tagSetOf attr := by
  set S := jsSetOfList (splitTags attr) with hS
  have hSnodup : S.Nodup := nodup_jsSetOfList _
  have hSfree : ∀ p ∈ S, ',' ∉ p.data := by
    intro p hp
    exact splitTags_comma_free attr p ((mem_jsSetOfList _ p).mp hp)
  have hSne : ∀ p ∈ S, p ≠ "" := by
    intro p hp
    exact hattr p ((mem_jsSetOfList _ p).mp hp)
  set T1 := toggleOnce active S with hT1
  have hT1nodup : T1.Nodup := nodup_toggleOnce active S hSnodup
  have hT1free : ∀ p ∈ T1, ',' ∉ p.data := by
    intro p hp
    rcases toggleOnce_subset active S p hp with hpS | hpA
    · exact hSfree p hpS
    · exact (hA p hpA).2
  have hT1ne : ∀ p ∈ T1, p ≠ "" := by
    intro p hp
    rcases toggleOnce_subset active S p hp with hpS | hpA
    · exact hSne p hpS
    · exact (hA p hpA).1
  have hsplit1 : splitTags (toggleClick active attr) = T1 :=
    splitTags_toggleClick active attr hT1free hT1ne
  have hT1set : jsSetOfList (splitTags (toggleClick active attr)) = T1 := by
    rw [hsplit1]
    exact jsSetOfList_eq_self T1 hT1nodup
  set T2 := toggleOnce active T1 with hT2
  have hT2nodup : T2.Nodup := nodup_toggleOnce active T1 hT1nodup
  have hT2free : ∀ p ∈ T2, ',' ∉ p.data := by
    intro p hp
    rcases toggleOnce_subset active T1 p hp with hpT | hpA
    · exact hT1free p hpT
    · exact (hA p hpA).2
  have hT2ne : ∀ p ∈ T2, p ≠ "" := by
    intro p hp
    rcases toggleOnce_subset active T1 p hp with hpT | hpA
    · exact hT1ne p hpT
    · exact (hA p hpA).1
  have hsplit2 : splitTags (toggleClick active (toggleClick active attr)) = T2 := by
    have := splitTags_toggleClick active (toggleClick active attr)
      (by rw [hT1set]; exact hT2free) (by rw [hT1set]; exact hT2ne)
    rw [hT1set] at this
    exact this
  unfold tagSetOf
  rw [hsplit2, jsSetOfList_eq_self T2 hT2nodup, ← hS]
  apply Finset.ext
  intro x
  rw [List.mem_toFinset, List.mem_toFinset]
  rw [hT2, mem_toggleOnce active hnd, hT1, mem_toggleOnce active hnd]
  by_cases hxA : x ∈ active
  · simp [hxA]
  · simp [hxA]

/-- C7 witness: the amended involution at a concrete element and tag. -/
theorem C7_witness :
    tagSetOf (toggleClick [c7tagA] (toggleClick [c7tagA] (some "foo,bar")))
      = tagSetOf (some "foo,bar") :=
  C7_claim (some "foo,bar") [c7tagA] (by decide) (by decide) (by decide)

end LivreMele
